import Mathlib

/-!
Verification of the interactive flowchart renderer (`flowchart.js`) of the
psn-security-incidents site.  The renderer turns a declarative JSON tree of
nodes into a nested, stateful, collapsible UI.  We embed the data model and
the state-transition functions shallowly:

* `RawNode` is the fetched JSON node (`NodeSpec`): every field may be absent
  (JS `undefined`), which we model with `Option`.
* `FNode` is the rendered flow-node element: the static data copied onto the
  element (`dataset.nodeId`, `dataset.depth`, type, label, detail text,
  child mode, the hierarchical tree number) together with the two logical
  visibility flags: `detailExpanded` models `dataset.expanded` and
  `childrenExpanded` models the absence of the `flow-children--collapsed`
  class (for a childless node there is no children container and the flag is
  constantly `true`).
* `renderNode` mirrors the recursive builder of the same name,
  `toggleDetail`/`toggleSection` mirror the per-node handlers, `headerClick`
  mirrors the click listener installed by `createCard`, and
  `expandAllClick` mirrors the button handler installed by
  `setupExpandAll`.

JS string truthiness (`if (node.detail)`, `treeNumber ? … : …`) is modelled
by `truthy`: an absent field and the empty string are both falsy.
-/

/-- JS truthiness of an optional string: `undefined` and `""` are falsy. -/
def truthy : Option String → Bool
  | none => false
  | some s => !(s == "")

/-- The decimal digit character for `n < 10` (models `String(n)` digit by digit). -/
def digitChar (n : Nat) : Char := Char.ofNat (48 + n)

/-- Fuel-driven decimal conversion; `fuel = n + 1` always suffices. -/
def decimalAux : Nat → Nat → List Char
  | 0, _ => []
  | fuel + 1, n =>
    if n < 10 then [digitChar n]
    else decimalAux fuel (n / 10) ++ [digitChar (n % 10)]

/-- Decimal representation of a natural number, modelling JS `String(n)`. -/
def decimalString (n : Nat) : String := String.mk (decimalAux (n + 1) n)

/-- Models `s.padStart(2, '0')`. -/
def padStart2 (s : String) : String :=
  if s.length < 2 then String.mk (List.replicate (2 - s.length) '0') ++ s else s

/-- Models `String(n).padStart(2, '0')` from `renderNode`'s child numbering. -/
def pad2 (n : Nat) : String := padStart2 (decimalString n)

/-- Child tree number: `treeNumber ? treeNumber + '.' + pad : pad` with
`pad = String(i + 1).padStart(2, '0')` (source lines 319–322). -/
def childNumber (treeNumber : String) (i : Nat) : String :=
  if treeNumber == "" then pad2 (i + 1) else treeNumber ++ "." ++ pad2 (i + 1)

/-- The data carried by one JSON node, minus its children.  Every field can
be absent in the fetched payload, hence the `Option`s. -/
structure RawData where
  id : Option String
  type : Option String
  label : Option String
  detail : Option String
  childMode : Option String
  deriving Repr, DecidableEq

/-- A fetched `NodeSpec` tree node (`data.root` and its descendants).  An
absent or empty `children` array are both modelled by `[]`, since the source
guards every use with `node.children && node.children.length > 0`. -/
inductive RawNode : Type where
  | mk (data : RawData) (children : List RawNode) : RawNode

/-- The static data the renderer copies onto a flow-node element. -/
structure NodeInfo where
  id : Option String
  type : Option String
  label : Option String
  detail : Option String
  childMode : Option String
  depth : Nat
  positionLabel : String
  deriving Repr, DecidableEq

/-- The two logical visibility flags of a rendered node:
`detailExpanded` models `dataset.expanded`, `childrenExpanded` models the
absence of the `flow-children--collapsed` class. -/
structure NodeState where
  detailExpanded : Bool
  childrenExpanded : Bool
  deriving Repr, DecidableEq

/-- A rendered flow-node element with its subtree. -/
inductive FNode : Type where
  | mk (info : NodeInfo) (st : NodeState) (children : List FNode) : FNode

def FNode.info : FNode → NodeInfo
  | .mk i _ _ => i

def FNode.st : FNode → NodeState
  | .mk _ s _ => s

def FNode.children : FNode → List FNode
  | .mk _ _ cs => cs

def FNode.detailExpanded (n : FNode) : Bool := n.st.detailExpanded

def FNode.childrenExpanded (n : FNode) : Bool := n.st.childrenExpanded

def FNode.type (n : FNode) : Option String := n.info.type

def FNode.detail (n : FNode) : Option String := n.info.detail

def FNode.depth (n : FNode) : Nat := n.info.depth

def FNode.positionLabel (n : FNode) : String := n.info.positionLabel

/-- Replace the state of the top node, keeping everything else. -/
def FNode.withSt : FNode → NodeState → FNode
  | .mk i _ cs, s => .mk i s cs

mutual

/-- The probe `nodeEl.querySelector('.flow-card__detail')` is non-null iff
some node of the subtree (the node itself or any descendant, since the selector is not
scoped with `:scope >`) has a truthy `detail`: a `.flow-card__detail`
element is created exactly when `node.detail` is truthy. -/
def hasDetailEl : FNode → Bool
  | .mk i _ cs => truthy i.detail || hasDetailElL cs

/-- The function `hasDetailEl` over a list of subtrees. -/
def hasDetailElL : List FNode → Bool
  | [] => false
  | c :: cs => hasDetailEl c || hasDetailElL cs

end

mutual

/-- Shallow embedding of `renderNode(node, depth, index, treeNumber)`
(source lines 295–340): copies the node data onto the element, sets
`dataset.expanded = 'false'`, renders the children with 1-based zero-padded
tree numbers, and adds the `flow-children--collapsed` class iff the node has
children, `node.type === 'section'` and `depth >= 1`. -/
def renderNode (node : RawNode) (depth : Nat) (_index : Nat) (treeNumber : String) : FNode :=
  match node with
  | .mk d cs =>
    let collapsed := !cs.isEmpty && (d.type == some "section") && decide (1 ≤ depth)
    FNode.mk
      ⟨d.id, d.type, d.label, d.detail, d.childMode, depth, treeNumber⟩
      ⟨false, !collapsed⟩
      (renderChildren cs depth treeNumber 0)

/-- The `node.children.forEach((child, i) => …)` loop of `renderNode`:
renders the suffix of the child list starting at sibling index `i`. -/
def renderChildren (cs : List RawNode) (depth : Nat) (treeNumber : String) (i : Nat) :
    List FNode :=
  match cs with
  | [] => []
  | c :: rest =>
    renderNode c (depth + 1) i (childNumber treeNumber i) ::
      renderChildren rest depth treeNumber (i + 1)

end

/-- Shallow embedding of `toggleDetail(nodeEl)` (source lines 440–476),
restricted to the logical flags.  The handler returns early when
`nodeEl.querySelector('.flow-card__detail')` is null; otherwise both
branches flip `dataset.expanded` (the height/aria/badge updates are
presentation only).  Only the flag of the addressed node changes. -/
def toggleDetail (n : FNode) : FNode :=
  if hasDetailEl n then n.withSt ⟨!n.st.detailExpanded, n.st.childrenExpanded⟩ else n

/-- Shallow embedding of `toggleSection(nodeEl)` (source lines 481–506).
`:scope > .flow-children` is null exactly when the node has no children.
Expanding also calls `toggleDetail` when `dataset.expanded === 'false'` and
a `.flow-card__detail` exists in the subtree; collapsing calls it when
`dataset.expanded === 'true'`. -/
def toggleSection (n : FNode) : FNode :=
  if n.children.isEmpty then n
  else if !n.st.childrenExpanded then
    let n1 := n.withSt ⟨n.st.detailExpanded, true⟩
    if !n1.st.detailExpanded && hasDetailEl n1 then toggleDetail n1 else n1
  else
    let n1 := n.withSt ⟨n.st.detailExpanded, false⟩
    if n1.st.detailExpanded then toggleDetail n1 else n1

/-- The test `node.type === 'section' && node.children && node.children.length > 0`:
the `isSection` flag captured by `createCard` (source line 407). -/
def isSectionNode (n : FNode) : Bool :=
  (n.type == some "section") && !n.children.isEmpty

/-- The click listener `createCard` installs on the card header (source
lines 410–417): a section node toggles its children, otherwise a node with
a truthy `detail` toggles its detail, otherwise nothing happens.  The
listener on the detail region (lines 421–430) makes the same dispatch, so
this models any activation of the card. -/
def headerClick (n : FNode) : FNode :=
  if isSectionNode n then toggleSection n
  else if truthy n.detail then toggleDetail n
  else n

/-- Look up the node reached from `t` by following the child indices in `p`. -/
def findAt (p : List Nat) (t : FNode) : Option FNode :=
  match p with
  | [] => some t
  | i :: rest => t.children[i]? >>= findAt rest

/-- Apply `g` to the `i`-th element of a list, if it exists. -/
def listModify (g : α → α) : List α → Nat → List α
  | [], _ => []
  | c :: cs, 0 => g c :: cs
  | c :: cs, i + 1 => c :: listModify g cs i

/-- Apply `f` to the node addressed by path `p` (a per-node DOM event only
reaches the addressed element); an invalid path changes nothing. -/
def updateAt (p : List Nat) (f : FNode → FNode) (t : FNode) : FNode :=
  match p with
  | [] => f t
  | i :: rest =>
    match t with
    | .mk info st cs => .mk info st (listModify (updateAt rest f) cs i)

mutual

/-- Apply the per-node state update `g` to every node of the tree.  `g`
reads the node (with its original subtree) and returns its new flags; this
models a `querySelectorAll(…).forEach` pass in which each iteration mutates
only the visited element's own flags. -/
def mapNodes (g : FNode → NodeState) : FNode → FNode
  | .mk info st cs => .mk info (g (.mk info st cs)) (mapNodesL g cs)

/-- The function `mapNodes` over a list of subtrees. -/
def mapNodesL (g : FNode → NodeState) : List FNode → List FNode
  | [] => []
  | c :: cs => mapNodes g c :: mapNodesL g cs

end

/-- Expand pass, step 1 (source lines 544–550):
`querySelectorAll('.flow-children--collapsed')` loses the collapsed class,
so every node that has a children container becomes expanded; a childless
node has no container and keeps its flag. -/
def secExpandStep (n : FNode) : NodeState :=
  ⟨n.st.detailExpanded, if n.children.isEmpty then n.st.childrenExpanded else true⟩

/-- Expand pass, step 2 (source lines 555–559): every node with
`dataset.expanded === 'false'` and a `.flow-card__detail` in its subtree is
`toggleDetail`-ed, which sets its flag to `true`. -/
def detExpandStep (n : FNode) : NodeState :=
  ⟨n.st.detailExpanded || hasDetailEl n, n.st.childrenExpanded⟩

/-- Collapse pass, step 1 (source lines 523–525): every node with
`dataset.expanded === 'true'` is `toggleDetail`-ed, which sets its flag to
`false` when a `.flow-card__detail` exists in its subtree and returns early
(leaving the flag `true`) otherwise. -/
def detCollapseStep (n : FNode) : NodeState :=
  ⟨n.st.detailExpanded && !hasDetailEl n, n.st.childrenExpanded⟩

/-- Collapse pass, step 2 (source lines 527–539): every `.flow-node--section`
element at `depth >= 1` whose children container exists gets the collapsed
class (adding it when already present changes nothing). -/
def secCollapseStep (n : FNode) : NodeState :=
  ⟨n.st.detailExpanded,
    if (n.type == some "section") && decide (1 ≤ n.depth) && !n.children.isEmpty then false
    else n.st.childrenExpanded⟩

/-- The expand path of the `setupExpandAll` button handler: sections first,
then details (source lines 542–561). -/
def expandAllPass (t : FNode) : FNode := mapNodes detExpandStep (mapNodes secExpandStep t)

/-- The collapse path of the `setupExpandAll` button handler: details first,
then sections (source lines 521–541). -/
def collapseAllPass (t : FNode) : FNode := mapNodes secCollapseStep (mapNodes detCollapseStep t)

/-- The state owned by `setupExpandAll`: the `allExpanded` flag (initially
`false`) and the rendered tree in the container. -/
structure FlowchartController where
  allExpanded : Bool
  tree : FNode

/-- One click of the expand-all / collapse-all button (source lines
517–563). -/
def expandAllClick (c : FlowchartController) : FlowchartController :=
  if c.allExpanded then ⟨false, collapseAllPass c.tree⟩
  else ⟨true, expandAllPass c.tree⟩

/-- The initial controller the mount installs: `allExpanded = false` and the
freshly rendered tree `renderNode(data.root, 0, 0, '')`. -/
def initialController (root : RawNode) : FlowchartController :=
  ⟨false, renderNode root 0 0 ""⟩

/-- Building the tree from the fetched payload.  `initFlowchart` runs
`renderNode(data.root, 0, 0, '')`; when `data.root` is absent the very
first field access `node.type` throws (the spec's `MalformedTree`
condition), otherwise the builder is total — a node missing `type` or
`label` is still rendered (`ICONS[node.type] || ICONS.info` falls back, a
missing label is written as text).  The thrown error is modelled as the
`Except.error` case. -/
def buildTree : Option RawNode → Except String FNode
  | none => .error "TypeError: Cannot read properties of undefined (reading 'type')"
  | some r => .ok (renderNode r 0 0 "")

/-- Outcome of the `fetch`/`resp.json()` boundary in `initFlowchart`:
either some thrown failure (network error, non-ok status, JSON parse
error), or a parsed payload whose `root` field may be absent. -/
inductive FetchResult : Type where
  | failure (msg : String) : FetchResult
  | success (root : Option RawNode) : FetchResult

/-- What the container holds after `initFlowchart` returns. -/
inductive MountResult : Type where
  | tree (t : FNode) : MountResult
  | errorPanel (msg : String) : MountResult

/-- Shallow embedding of `initFlowchart` (source lines 258–285) for a page
that has the container: the whole fetch-and-render sequence sits in one
`try`; any failure reaches the `catch`, which replaces the container
content with the static error panel.  The tree is appended only after
`renderNode` returned the fully built root element. -/
def initFlowchart (r : FetchResult) : MountResult :=
  match r with
  | .failure msg => .errorPanel msg
  | .success root =>
    match buildTree root with
    | .error msg => .errorPanel msg
    | .ok t => .tree t

/-- The tree number accumulated along a path of child indices. -/
def appendPath : String → List Nat → String
  | tn, [] => tn
  | tn, i :: rest => appendPath (childNumber tn i) rest

/-- The dot-separated concatenation of a list of segments: `joinDots l` has
exactly `l.length` dot-separated segments when the segments themselves are
non-empty and dot-free.  This is the specification-side reading of a
"position label with d segments". -/
def joinDots : List String → String
  | [] => ""
  | [s] => s
  | s :: r :: rest => s ++ "." ++ joinDots (r :: rest)

/-! ### Concrete example trees used by witnesses and counterexamples -/

/-- C1: a depth-1 section `S` with no detail of its own whose only child
carries a detail. -/
def exTreeC1 : RawNode :=
  .mk ⟨some "r", some "section", some "Root", none, none⟩
    [.mk ⟨some "s", some "section", some "S", none, none⟩
      [.mk ⟨some "c", some "action", some "C", some "x", none⟩ []]]

/-- C2 witness: a small mixed tree. -/
def exTreeC2 : RawNode :=
  .mk ⟨some "r", some "section", some "Root", none, none⟩
    [.mk ⟨some "s", some "section", some "S", none, none⟩
      [.mk ⟨some "c", some "action", some "C", some "x", none⟩ []]]

/-- C3 witness: a depth-1 section with a detail-carrying child. -/
def exTreeC3 : RawNode :=
  .mk ⟨some "r", some "section", some "Root", some "top", none⟩
    [.mk ⟨some "s", some "section", some "S", none, none⟩
      [.mk ⟨some "c", some "action", some "C", some "x", none⟩ []]]

/-- C4: a depth-0 section carrying its own detail. -/
def exTreeC4 : RawNode :=
  .mk ⟨some "r", some "section", some "Root", some "d", none⟩
    [.mk ⟨some "a", some "action", some "A", none, none⟩ []]

/-- C5: a tree with a manually toggleable depth-1 section and no details. -/
def exTreeC5 : RawNode :=
  .mk ⟨some "r", some "section", some "Root", none, none⟩
    [.mk ⟨some "s", some "section", some "S", none, none⟩
      [.mk ⟨some "c", some "action", some "C", none, none⟩ []]]

/-- C5 counterexample start state: the initial tree after one manual toggle
of the depth-1 section `S`; the controller flag is still `false`. -/
def exStateC5 : FlowchartController :=
  ⟨false, updateAt [0] headerClick (renderNode exTreeC5 0 0 "")⟩

/-- C6: a root node that lacks the required `type` field. -/
def exTreeC6 : RawNode := .mk ⟨some "n1", none, some "L", none, none⟩ []

/-- C8 witness tree: two levels below the root. -/
def exTreeC8 : RawNode :=
  .mk ⟨some "r", some "section", some "Root", none, none⟩
    [.mk ⟨some "s", some "section", some "S", none, none⟩
      [.mk ⟨some "c", some "action", some "C", none, none⟩ [],
       .mk ⟨some "d", some "action", some "D", none, none⟩ []]]

/-- C9: a node with a detail and no children (`A`), next to a sibling `B`. -/
def exTreeC9 : RawNode :=
  .mk ⟨some "r", some "section", some "Root", none, none⟩
    [.mk ⟨some "a", some "info", some "A", some "x", none⟩ [],
     .mk ⟨some "b", some "info", some "B", some "y", none⟩ []]

/-- C10: an inert node (`A`: not a section-with-children, no detail). -/
def exTreeC10 : RawNode :=
  .mk ⟨some "r", some "section", some "Root", none, none⟩
    [.mk ⟨some "a", some "action", some "A", none, none⟩ [],
     .mk ⟨some "b", some "info", some "B", some "y", none⟩ []]

/-- The node `S` of the freshly rendered C2 example tree. -/
def exInstC2 : FNode :=
  (findAt [0] (renderNode exTreeC2 0 0 "")).getD (renderNode exTreeC2 0 0 "")

/-- The rendered C3 tree after one click of the expand-all button. -/
def exT1C3 : FNode := (expandAllClick (initialController exTreeC3)).tree

/-- The rendered C3 tree after two clicks of the expand-all button. -/
def exT2C3 : FNode :=
  (expandAllClick (expandAllClick (initialController exTreeC3))).tree

/-- The node `S` of `exT2C3`. -/
def exInst2C3 : FNode := (findAt [0] exT2C3).getD exT2C3

/-- The node `S` of the freshly rendered C8 example tree. -/
def exInstC8 : FNode :=
  (findAt [0] (renderNode exTreeC8 0 0 "")).getD (renderNode exTreeC8 0 0 "")

/-- The node `D` (second child of `S`) of the rendered C8 example tree. -/
def exChildC8 : FNode :=
  (findAt [0, 1] (renderNode exTreeC8 0 0 "")).getD (renderNode exTreeC8 0 0 "")

/-- The node `A` of the freshly rendered C9 example tree. -/
def exNodeC9 : FNode :=
  (findAt [0] (renderNode exTreeC9 0 0 "")).getD (renderNode exTreeC9 0 0 "")

/-- The node `A` of the freshly rendered C10 example tree. -/
def exNodeC10 : FNode :=
  (findAt [0] (renderNode exTreeC10 0 0 "")).getD (renderNode exTreeC10 0 0 "")

/-! ### Basic lemmas about the embedding -/

@[simp]
theorem FNode.info_mk (i : NodeInfo) (s : NodeState) (cs : List FNode) :
    (FNode.mk i s cs).info = i := rfl

@[simp]
theorem FNode.st_mk (i : NodeInfo) (s : NodeState) (cs : List FNode) :
    (FNode.mk i s cs).st = s := rfl

@[simp]
theorem FNode.children_mk (i : NodeInfo) (s : NodeState) (cs : List FNode) :
    (FNode.mk i s cs).children = cs := rfl

@[simp]
theorem FNode.withSt_mk (i : NodeInfo) (s s' : NodeState) (cs : List FNode) :
    (FNode.mk i s cs).withSt s' = FNode.mk i s' cs := rfl

theorem FNode.eta (n : FNode) : FNode.mk n.info n.st n.children = n := by
  cases n
  rfl

@[simp]
theorem hasDetailEl_mk (i : NodeInfo) (s : NodeState) (cs : List FNode) :
    hasDetailEl (.mk i s cs) = (truthy i.detail || hasDetailElL cs) := by
  rw [hasDetailEl]

theorem hasDetailEl_st_irrel (i : NodeInfo) (s s' : NodeState) (cs : List FNode) :
    hasDetailEl (.mk i s cs) = hasDetailEl (.mk i s' cs) := by
  simp

/-- Structural induction for `FNode` with the children gathered as a
membership hypothesis. -/
theorem fnodeInduction {P : FNode → Prop}
    (h : ∀ info st cs, (∀ c ∈ cs, P c) → P (.mk info st cs)) (t : FNode) : P t := by
  have H : ∀ n (t : FNode), sizeOf t ≤ n → P t := by
    intro n
    induction n with
    | zero =>
      intro t ht
      cases t with
      | mk info st cs => simp at ht
    | succ n ih =>
      intro t ht
      cases t with
      | mk info st cs =>
        apply h
        intro c hc
        apply ih
        have h1 : sizeOf c < sizeOf cs := List.sizeOf_lt_of_mem hc
        have h2 : sizeOf (FNode.mk info st cs) = 1 + sizeOf info + sizeOf st + sizeOf cs := by
          simp
        omega
  exact H (sizeOf t) t le_rfl

/-- Structural induction for `RawNode` with the children gathered as a
membership hypothesis. -/
theorem rawNodeInduction {P : RawNode → Prop}
    (h : ∀ d cs, (∀ c ∈ cs, P c) → P (.mk d cs)) (t : RawNode) : P t := by
  have H : ∀ n (t : RawNode), sizeOf t ≤ n → P t := by
    intro n
    induction n with
    | zero =>
      intro t ht
      cases t with
      | mk d cs => simp at ht
    | succ n ih =>
      intro t ht
      cases t with
      | mk d cs =>
        apply h
        intro c hc
        apply ih
        have h1 : sizeOf c < sizeOf cs := List.sizeOf_lt_of_mem hc
        have h2 : sizeOf (RawNode.mk d cs) = 1 + sizeOf d + sizeOf cs := by simp
        omega
  exact H (sizeOf t) t le_rfl

@[simp]
theorem listModify_nil (g : α → α) (i : Nat) : listModify g [] i = [] := by
  cases i <;> rfl

theorem listModify_get?_self (g : α → α) (l : List α) (i : Nat) :
    (listModify g l i)[i]? = l[i]?.map g := by
  induction l generalizing i with
  | nil => simp
  | cons c cs ih =>
    cases i with
    | zero => simp [listModify]
    | succ i => simpa [listModify] using ih i

theorem listModify_get?_ne (g : α → α) (l : List α) (i j : Nat) (hij : i ≠ j) :
    (listModify g l i)[j]? = l[j]? := by
  induction l generalizing i j with
  | nil => simp
  | cons c cs ih =>
    cases i with
    | zero =>
      cases j with
      | zero => exact absurd rfl hij
      | succ j => simp [listModify]
    | succ i =>
      cases j with
      | zero => simp [listModify]
      | succ j => simpa [listModify] using ih i j (by omega)

@[simp]
theorem findAt_nil (t : FNode) : findAt [] t = some t := rfl

theorem findAt_cons (i : Nat) (p : List Nat) (t : FNode) :
    findAt (i :: p) t = t.children[i]? >>= findAt p := rfl

theorem updateAt_nil (f : FNode → FNode) (t : FNode) : updateAt [] f t = f t := rfl

theorem updateAt_cons (i : Nat) (p : List Nat) (f : FNode → FNode) (info : NodeInfo)
    (st : NodeState) (cs : List FNode) :
    updateAt (i :: p) f (.mk info st cs) = .mk info st (listModify (updateAt p f) cs i) := rfl

/-- What a per-node handler does to the addressed node itself. -/
theorem findAt_updateAt_self (p : List Nat) (f : FNode → FNode) (t : FNode) :
    findAt p (updateAt p f t) = (findAt p t).map f := by
  induction p generalizing t with
  | nil => simp [updateAt_nil]
  | cons i rest ih =>
    cases t with
    | mk info st cs =>
      rw [updateAt_cons, findAt_cons, findAt_cons]
      simp only [FNode.children_mk, listModify_get?_self]
      cases cs[i]? with
      | none => rfl
      | some c => simpa using ih c

/-- A per-node handler at `q` does not change any node in a sibling branch:
the two paths diverge at index `i ≠ j` below the common prefix `r`. -/
theorem findAt_updateAt_sibling (r : List Nat) (i j : Nat) (p q : List Nat)
    (f : FNode → FNode) (t : FNode) (hij : i ≠ j) :
    findAt (r ++ i :: p) (updateAt (r ++ j :: q) f t) = findAt (r ++ i :: p) t := by
  induction r generalizing t with
  | nil =>
    cases t with
    | mk info st cs =>
      rw [List.nil_append, List.nil_append, updateAt_cons, findAt_cons, findAt_cons]
      simp only [FNode.children_mk]
      rw [listModify_get?_ne _ _ _ _ (by omega)]
  | cons k r ih =>
    cases t with
    | mk info st cs =>
      rw [List.cons_append, List.cons_append, updateAt_cons, findAt_cons, findAt_cons]
      simp only [FNode.children_mk, listModify_get?_self]
      cases cs[k]? with
      | none => rfl
      | some c => simpa using ih c

/-- A handler that fixes the addressed node leaves the whole tree unchanged. -/
theorem updateAt_eq_self (p : List Nat) (f : FNode → FNode) (t : FNode)
    (h : ∀ n, findAt p t = some n → f n = n) : updateAt p f t = t := by
  induction p generalizing t with
  | nil => exact h t rfl
  | cons i rest ih =>
    cases t with
    | mk info st cs =>
      rw [updateAt_cons]
      congr 1
      have hmod : listModify (updateAt rest f) cs i = cs := by
        have hcase : ∀ (l : List FNode) (k : Nat),
            (∀ c, l[k]? = some c → updateAt rest f c = c) → listModify (updateAt rest f) l k = l := by
          intro l
          induction l with
          | nil => intro k _; simp
          | cons c cs ihl =>
            intro k hk
            cases k with
            | zero =>
              simp only [listModify]
              rw [hk c (by simp)]
            | succ k =>
              simp only [listModify, List.cons.injEq, true_and]
              exact ihl k (fun c hc => hk c (by simpa using hc))
        apply hcase
        intro c hc
        apply ih
        intro n hn
        apply h
        rw [findAt_cons]
        simp only [FNode.children_mk]
        rw [hc]
        simpa using hn
      rw [hmod]

/-! ### Lemmas about the bulk passes -/

theorem mapNodes_mk (g : FNode → NodeState) (info : NodeInfo) (st : NodeState)
    (cs : List FNode) :
    mapNodes g (.mk info st cs) = .mk info (g (.mk info st cs)) (mapNodesL g cs) := by
  rw [mapNodes]

theorem mapNodesL_eq_map (g : FNode → NodeState) (cs : List FNode) :
    mapNodesL g cs = cs.map (mapNodes g) := by
  induction cs with
  | nil => rfl
  | cons c cs ih => rw [mapNodesL, ih, List.map_cons]

theorem mapNodes_info (g : FNode → NodeState) (t : FNode) : (mapNodes g t).info = t.info := by
  cases t with
  | mk info st cs => rw [mapNodes_mk, FNode.info_mk, FNode.info_mk]

theorem mapNodes_st (g : FNode → NodeState) (t : FNode) : (mapNodes g t).st = g t := by
  cases t with
  | mk info st cs => rw [mapNodes_mk, FNode.st_mk]

theorem mapNodesL_get? (g : FNode → NodeState) (cs : List FNode) (i : Nat) :
    (mapNodesL g cs)[i]? = cs[i]?.map (mapNodes g) := by
  rw [mapNodesL_eq_map, List.getElem?_map]

/-- A bulk pass keeps the set of detail elements: it rewrites only flags. -/
theorem hasDetailEl_mapNodes (g : FNode → NodeState) (t : FNode) :
    hasDetailEl (mapNodes g t) = hasDetailEl t := by
  induction t using fnodeInduction with
  | h info st cs ih =>
    rw [mapNodes_mk, hasDetailEl_mk, hasDetailEl_mk]
    congr 1
    induction cs with
    | nil => rfl
    | cons c cs ihl =>
      rw [mapNodesL, hasDetailElL, hasDetailElL, ih c (by simp),
        ihl (fun c hc => ih c (by simp [hc]))]

theorem hasDetailElL_mapNodesL (g : FNode → NodeState) (cs : List FNode) :
    hasDetailElL (mapNodesL g cs) = hasDetailElL cs := by
  induction cs with
  | nil => rfl
  | cons c cs ih => rw [mapNodesL, hasDetailElL, hasDetailElL, hasDetailEl_mapNodes, ih]

/-- A bulk pass rewrites every node in place: node lookup commutes with it. -/
theorem findAt_mapNodes (g : FNode → NodeState) (p : List Nat) (t : FNode) :
    findAt p (mapNodes g t) = (findAt p t).map (mapNodes g) := by
  induction p generalizing t with
  | nil => simp
  | cons i rest ih =>
    cases t with
    | mk info st cs =>
      rw [mapNodes_mk, findAt_cons, findAt_cons]
      simp only [FNode.children_mk, mapNodesL_get?]
      cases cs[i]? with
      | none => rfl
      | some c => simpa using ih c

theorem mapNodesL_isEmpty (g : FNode → NodeState) (cs : List FNode) :
    (mapNodesL g cs).isEmpty = cs.isEmpty := by
  cases cs with
  | nil => rfl
  | cons c cs => rw [mapNodesL]; rfl

theorem mapNodes_children_isEmpty (g : FNode → NodeState) (t : FNode) :
    (mapNodes g t).children.isEmpty = t.children.isEmpty := by
  cases t with
  | mk info st cs => rw [mapNodes_mk, FNode.children_mk, FNode.children_mk, mapNodesL_isEmpty]

/-! ### Lemmas about the builder -/

theorem renderChildren_get? (cs : List RawNode) (depth : Nat) (treeNumber : String)
    (j i : Nat) :
    (renderChildren cs depth treeNumber j)[i]? =
      cs[i]?.map (fun c => renderNode c (depth + 1) (j + i) (childNumber treeNumber (j + i))) := by
  induction cs generalizing i j with
  | nil => rw [renderChildren]; simp
  | cons c rest ih =>
    rw [renderChildren]
    cases i with
    | zero => simp
    | succ i =>
      simp only [List.getElem?_cons_succ]
      rw [ih (j + 1) i]
      have : j + 1 + i = j + (i + 1) := by omega
      rw [this]

theorem renderChildren_isEmpty (cs : List RawNode) (depth : Nat) (treeNumber : String)
    (i : Nat) : (renderChildren cs depth treeNumber i).isEmpty = cs.isEmpty := by
  cases cs with
  | nil => rfl
  | cons c rest => rw [renderChildren]; rfl

/-- Every node of a rendered tree is itself a rendered subtree, at the depth,
sibling index and tree number determined by its path. -/
theorem findAt_renderNode (p : List Nat) (node : RawNode) (depth idx : Nat)
    (treeNumber : String) (inst : FNode)
    (h : findAt p (renderNode node depth idx treeNumber) = some inst) :
    ∃ node' idx', inst = renderNode node' (depth + p.length) idx' (appendPath treeNumber p) := by
  induction p generalizing node depth idx treeNumber with
  | nil =>
    refine ⟨node, idx, ?_⟩
    simp only [findAt_nil, Option.some.injEq] at h
    simpa using h.symm
  | cons i rest ih =>
    cases node with
    | mk d cs =>
      rw [renderNode, findAt_cons] at h
      simp only [FNode.children_mk, renderChildren_get?, Nat.zero_add] at h
      cases hc : cs[i]? with
      | none => rw [hc] at h; simp at h
      | some c =>
        rw [hc] at h
        simp only [Option.map_some', Option.some_bind] at h
        obtain ⟨node', idx', h'⟩ := ih c (depth + 1) i (childNumber treeNumber i) h
        refine ⟨node', idx', ?_⟩
        have harr : depth + 1 + rest.length = depth + (i :: rest).length := by
          simp only [List.length_cons]
          omega
        rw [h', appendPath, harr]

/-! ### Position-label lemmas -/

theorem ne_empty_of_length_pos {s : String} (h : 0 < s.length) : s ≠ "" := by
  intro he
  rw [he] at h
  simp at h

theorem decimalAux_length_pos (fuel n : Nat) : 0 < (decimalAux (fuel + 1) n).length := by
  rw [decimalAux]
  by_cases h : n < 10
  · simp [h]
  · simp [h]

theorem decimalString_ne_empty (n : Nat) : decimalString n ≠ "" := by
  apply ne_empty_of_length_pos
  show 0 < (decimalAux (n + 1) n).length
  exact decimalAux_length_pos n n

theorem pad2_ne_empty (n : Nat) : pad2 n ≠ "" := by
  apply ne_empty_of_length_pos
  rw [pad2, padStart2]
  by_cases h : (decimalString n).length < 2
  · rw [if_pos h, String.length_append]
    have := decimalAux_length_pos n n
    have : 0 < (decimalString n).length := this
    omega
  · rw [if_neg h]
    omega

theorem joinDots_ne_empty (s : String) (rest : List String) (hs : s ≠ "") :
    joinDots (s :: rest) ≠ "" := by
  apply ne_empty_of_length_pos
  have hslen : 0 < s.length := by
    by_contra hc
    exact hs (by
      have : s.length = 0 := by omega
      cases s with
      | mk data =>
        cases data with
        | nil => rfl
        | cons c cs => simp [String.length] at this)
  cases rest with
  | nil => rw [joinDots]; omega
  | cons r rs =>
    rw [joinDots, String.length_append, String.length_append]
    omega

theorem joinDots_append_singleton (l : List String) (p : String) :
    joinDots (l ++ [p]) = if l.isEmpty then p else joinDots l ++ "." ++ p := by
  induction l with
  | nil => simp [joinDots]
  | cons s rest ih =>
    cases rest with
    | nil => simp [joinDots]
    | cons r rs =>
      simp only [List.cons_append] at ih ⊢
      rw [joinDots, ih]
      simp [joinDots, String.append_assoc]

theorem childNumber_joinDots (segs : List String) (i : Nat)
    (h : ∀ s ∈ segs, s ≠ "") :
    childNumber (joinDots segs) i = joinDots (segs ++ [pad2 (i + 1)]) := by
  cases segs with
  | nil => simp [joinDots, childNumber]
  | cons s rest =>
    rw [childNumber, joinDots_append_singleton]
    have hne : joinDots (s :: rest) ≠ "" := joinDots_ne_empty s rest (h s (by simp))
    rw [if_neg (by simpa using hne), if_neg (by simp)]

theorem appendPath_joinDots (p : List Nat) (segs : List String)
    (h : ∀ s ∈ segs, s ≠ "") :
    appendPath (joinDots segs) p = joinDots (segs ++ p.map (fun i => pad2 (i + 1))) := by
  induction p generalizing segs with
  | nil => simp [appendPath]
  | cons i rest ih =>
    rw [appendPath, childNumber_joinDots segs i h, ih]
    · simp
    · intro s hs
      rcases List.mem_append.mp hs with h1 | h1
      · exact h s h1
      · simp only [List.mem_singleton] at h1
        rw [h1]
        exact pad2_ne_empty (i + 1)

theorem appendPath_empty_eq_joinDots (p : List Nat) :
    appendPath "" p = joinDots (p.map (fun i => pad2 (i + 1))) := by
  have := appendPath_joinDots p [] (by simp)
  simpa [joinDots] using this

theorem appendPath_snoc (tn : String) (p : List Nat) (i : Nat) :
    appendPath tn (p ++ [i]) = childNumber (appendPath tn p) i := by
  induction p generalizing tn with
  | nil => simp [appendPath]
  | cons j rest ih => rw [List.cons_append, appendPath, appendPath, ih]

theorem toggleSection_spec (n : FNode) (h : n.children.isEmpty = false) :
    toggleSection n = n.withSt
      (if n.st.childrenExpanded then ⟨n.st.detailExpanded && !hasDetailEl n, false⟩
       else ⟨n.st.detailExpanded || hasDetailEl n, true⟩) := by
  cases n with
  | mk info st cs =>
    cases st with
    | mk de ce =>
      simp only [FNode.children_mk] at h
      simp only [toggleSection, toggleDetail, FNode.withSt, hasDetailEl_mk, FNode.children_mk,
        FNode.st_mk, h]
      cases de <;> cases ce <;>
        cases h1 : (truthy info.detail || hasDetailElL cs) <;>
          simp [h1]

theorem renderNode_roundtrip (node : RawNode) : ∀ (depth idx : Nat) (tn : String),
    mapNodes secCollapseStep (mapNodes detCollapseStep (mapNodes detExpandStep
      (mapNodes secExpandStep (renderNode node depth idx tn)))) =
      renderNode node depth idx tn := by
  induction node using rawNodeInduction with
  | h d cs ih =>
    intro depth idx tn
    have hlistL : ∀ (l : List RawNode),
        (∀ c ∈ l, ∀ (dep i : Nat) (tn2 : String),
          mapNodes secCollapseStep (mapNodes detCollapseStep (mapNodes detExpandStep
            (mapNodes secExpandStep (renderNode c dep i tn2)))) = renderNode c dep i tn2) →
        ∀ (dep : Nat) (tn2 : String) (j : Nat),
          mapNodesL secCollapseStep (mapNodesL detCollapseStep (mapNodesL detExpandStep
            (mapNodesL secExpandStep (renderChildren l dep tn2 j)))) =
            renderChildren l dep tn2 j := by
      intro l
      induction l with
      | nil => intro _ dep tn2 j; rw [renderChildren]; rfl
      | cons c rest ihl =>
        intro hmem dep tn2 j
        rw [renderChildren, mapNodesL, mapNodesL, mapNodesL, mapNodesL, hmem c (by simp),
          ihl (fun c hc => hmem c (by simp [hc])) dep tn2 (j + 1)]
    rw [renderNode]
    simp only [mapNodes_mk, FNode.st_mk, FNode.children_mk, FNode.info_mk]
    rw [hlistL cs ih depth tn 0]
    congr 1
    simp only [secExpandStep, detExpandStep, detCollapseStep, secCollapseStep,
      FNode.children_mk, FNode.st_mk, FNode.type, FNode.detail, FNode.depth, FNode.info_mk,
      hasDetailEl_mk, hasDetailElL_mapNodesL, mapNodesL_isEmpty, renderChildren_isEmpty]
    cases hne : cs.isEmpty <;> cases hsec : (d.type == some "section") <;>
      cases hd1 : decide (1 ≤ depth) <;>
        cases hdd : (truthy d.detail || hasDetailElL (renderChildren cs depth tn 0)) <;>
          simp [hne, hsec, hd1, hdd]

/-- What one expand-all pass does to each node of a freshly rendered tree:
every node with children ends expanded, and the detail flag ends `true`
exactly when the subtree holds a detail element. -/
theorem expandAllPass_node (node : RawNode) (dep idx : Nat) (tn : String) (p : List Nat)
    (inst : FNode)
    (h : findAt p (expandAllPass (renderNode node dep idx tn)) = some inst) :
    (inst.children.isEmpty = false → inst.childrenExpanded = true) ∧
    inst.detailExpanded = (truthy inst.detail || hasDetailElL inst.children) := by
  rw [expandAllPass, findAt_mapNodes, findAt_mapNodes, Option.map_map] at h
  simp only [Option.map_eq_some', Function.comp_apply] at h
  obtain ⟨sub, hsub, hinst⟩ := h
  obtain ⟨node', idx', hform⟩ := findAt_renderNode p node dep idx tn sub hsub
  subst hform
  subst hinst
  cases node' with
  | mk d cs =>
    rw [renderNode]
    simp only [mapNodes_mk, FNode.detailExpanded, FNode.childrenExpanded, FNode.detail,
      FNode.type, FNode.st_mk, FNode.children_mk, FNode.info_mk, detExpandStep, secExpandStep,
      hasDetailEl_mk, hasDetailElL_mapNodesL, mapNodesL_isEmpty, renderChildren_isEmpty,
      FNode.st, FNode.info, FNode.children]
    constructor
    · intro hne
      rw [hne]
      simp
    · simp

/-! ### Claims -/

/-- C1, counterexample.  The claim says a section whose own NodeSpec has no
detail has its `detailExpanded` flag unchanged by the children toggle.  In
the code, `toggleSection` probes `nodeEl.querySelector('.flow-card__detail')`,
which also finds a descendant's detail element: activating the header of the
depth-1 section `S` of `exTreeC1` — a section with no detail of its own but
with a detail-carrying child — flips `S`'s `detailExpanded` from `false` to
`true`. -/
theorem C1_counterexample :
    (findAt [0] (renderNode exTreeC1 0 0 "")).map FNode.detail = some none ∧
    (findAt [0] (renderNode exTreeC1 0 0 "")).map FNode.detailExpanded = some false ∧
    (findAt [0] (updateAt [0] headerClick (renderNode exTreeC1 0 0 ""))).map
      FNode.detailExpanded = some true :=
  ⟨rfl, rfl, rfl⟩

/-- C1, amended.  Coupling rule as implemented: activating a section node's
header toggles exactly the children facet; expanding (collapsed → expanded)
forces `detailExpanded` to `true` when a detail element exists anywhere in
the node's subtree (its own card or a descendant's) and it is currently
collapsed; collapsing forces `detailExpanded` to `false` when currently
expanded, provided such a detail element exists (otherwise the flag is left
unchanged); and a section with no detail anywhere in its subtree never has
its `detailExpanded` flag changed by the toggle. -/
theorem C1_coupling_subtree (n : FNode) (hsec : n.type = some "section")
    (hch : n.children.isEmpty = false) :
    headerClick n = toggleSection n ∧
    (n.childrenExpanded = false →
      (toggleSection n).childrenExpanded = true ∧
      (toggleSection n).detailExpanded = (n.detailExpanded || hasDetailEl n)) ∧
    (n.childrenExpanded = true →
      (toggleSection n).childrenExpanded = false ∧
      (toggleSection n).detailExpanded = (n.detailExpanded && !hasDetailEl n)) ∧
    (hasDetailEl n = false → (toggleSection n).detailExpanded = n.detailExpanded) := by
  have hhc : headerClick n = toggleSection n := by
    rw [headerClick, if_pos]
    rw [isSectionNode, hsec, hch]
    rfl
  have hspec := toggleSection_spec n hch
  refine ⟨hhc, ?_, ?_, ?_⟩
  · intro hce
    rw [hspec]
    cases n with
    | mk info st cs =>
      simp only [FNode.childrenExpanded, FNode.st_mk] at hce
      simp [FNode.withSt, FNode.childrenExpanded, FNode.detailExpanded, hce]
  · intro hce
    rw [hspec]
    cases n with
    | mk info st cs =>
      simp only [FNode.childrenExpanded, FNode.st_mk] at hce
      simp [FNode.withSt, FNode.childrenExpanded, FNode.detailExpanded, hce]
  · intro hhd
    rw [hspec]
    cases n with
    | mk info st cs =>
      simp only [hasDetailEl_mk] at hhd
      simp [FNode.withSt, FNode.detailExpanded, FNode.childrenExpanded, hhd]
      cases h1 : st.childrenExpanded <;> simp [FNode.withSt]

/-- C1 witness: the amended coupling rule applied to the root section of
`exTreeC1`. -/
theorem C1_coupling_subtree_witness :
    (renderNode exTreeC1 0 0 "").type = some "section" ∧
    (renderNode exTreeC1 0 0 "").children.isEmpty = false ∧
    headerClick (renderNode exTreeC1 0 0 "") = toggleSection (renderNode exTreeC1 0 0 "") :=
  ⟨rfl, rfl, (C1_coupling_subtree (renderNode exTreeC1 0 0 "") rfl rfl).1⟩

/-- C2.  Immediately after the tree is built, every node has
`detailExpanded = false`; `childrenExpanded` is `false` for a section node
with at least one child at depth ≥ 1 and `true` for every other node
(depth-0 sections, non-section nodes and childless nodes alike). -/
theorem C2_initial_state (node : RawNode) (p : List Nat) (inst : FNode)
    (h : findAt p (renderNode node 0 0 "") = some inst) :
    inst.detailExpanded = false ∧
    ((inst.type = some "section" ∧ 1 ≤ inst.depth ∧ inst.children.isEmpty = false) →
      inst.childrenExpanded = false) ∧
    (¬(inst.type = some "section" ∧ 1 ≤ inst.depth ∧ inst.children.isEmpty = false) →
      inst.childrenExpanded = true) := by
  obtain ⟨node', idx', hform⟩ := findAt_renderNode p node 0 0 "" inst h
  subst hform
  cases node' with
  | mk d cs =>
    rw [renderNode]
    simp only [FNode.detailExpanded, FNode.childrenExpanded, FNode.type, FNode.depth,
      FNode.st_mk, FNode.children_mk, FNode.info_mk, renderChildren_isEmpty,
      FNode.st, FNode.info, FNode.children]
    refine ⟨by trivial, ?_, ?_⟩
    · rintro ⟨h1, h2, h3⟩
      simp only [Nat.zero_add] at h2
      simp [h1, h2, h3]
    · intro hneg
      by_cases h1 : d.type = some "section"
      · by_cases h2 : 1 ≤ 0 + p.length
        · by_cases h3 : cs.isEmpty
          · simp [h3]
          · exact absurd ⟨h1, h2, by simpa using h3⟩ hneg
        · have : p.length = 0 := by omega
          simp [this]
      · simp [h1]

/-- C2 witness: the depth-1 section `S` of `exTreeC2` starts collapsed. -/
theorem C2_initial_state_witness :
    findAt [0] (renderNode exTreeC2 0 0 "") = some exInstC2 ∧
    exInstC2.childrenExpanded = false :=
  ⟨rfl, (C2_initial_state exTreeC2 [0] exInstC2 rfl).2.1 ⟨rfl, by decide, rfl⟩⟩

/-- The flags of every node of a freshly rendered tree, together with its
depth: `detailExpanded` is `false`, `childrenExpanded` is collapsed exactly
for section nodes with children at depth ≥ 1, and the stored depth is the
path length below the render root. -/
theorem renderNode_flags (node : RawNode) (dep idx : Nat) (tn : String) (p : List Nat)
    (inst : FNode) (h : findAt p (renderNode node dep idx tn) = some inst) :
    inst.detailExpanded = false ∧
    inst.childrenExpanded =
      !(!inst.children.isEmpty && (inst.type == some "section") && decide (1 ≤ inst.depth)) ∧
    inst.depth = dep + p.length := by
  obtain ⟨node', idx', hform⟩ := findAt_renderNode p node dep idx tn inst h
  subst hform
  cases node' with
  | mk d cs =>
    rw [renderNode]
    simp only [FNode.detailExpanded, FNode.childrenExpanded, FNode.type, FNode.depth,
      FNode.st_mk, FNode.children_mk, FNode.info_mk, renderChildren_isEmpty,
      FNode.st, FNode.info, FNode.children]
    exact ⟨by trivial, by trivial, by trivial⟩

/-- C3.  Starting from the initial state (controller flag `false`), one
click of the expand/collapse-all button makes every section node's
`childrenExpanded` true and every node-with-detail's `detailExpanded` true;
a second click makes every depth ≥ 1 section's `childrenExpanded` false and
every node's `detailExpanded` false, while every depth-0 section keeps
`childrenExpanded = true`. -/
theorem C3_toggle_all (node : RawNode) :
    (∀ p inst, findAt p (expandAllClick (initialController node)).tree = some inst →
      (isSectionNode inst = true → inst.childrenExpanded = true) ∧
      (truthy inst.detail = true → inst.detailExpanded = true)) ∧
    (∀ p inst,
      findAt p (expandAllClick (expandAllClick (initialController node))).tree = some inst →
      inst.detailExpanded = false ∧
      (isSectionNode inst = true → 1 ≤ inst.depth → inst.childrenExpanded = false) ∧
      (isSectionNode inst = true → inst.depth = 0 → inst.childrenExpanded = true)) := by
  have ht1 : (expandAllClick (initialController node)).tree =
      expandAllPass (renderNode node 0 0 "") := rfl
  have ht2 : (expandAllClick (expandAllClick (initialController node))).tree =
      collapseAllPass (expandAllPass (renderNode node 0 0 "")) := rfl
  constructor
  · intro p inst h
    rw [ht1] at h
    have hnode := expandAllPass_node node 0 0 "" p inst h
    constructor
    · intro hsec
      apply hnode.1
      rw [isSectionNode, Bool.and_eq_true] at hsec
      simpa using hsec.2
    · intro hdet
      rw [hnode.2, hdet]
      rfl
  · intro p inst h
    rw [ht2] at h
    have hrt : collapseAllPass (expandAllPass (renderNode node 0 0 "")) =
        renderNode node 0 0 "" := by
      simp only [collapseAllPass, expandAllPass]
      exact renderNode_roundtrip node 0 0 ""
    rw [hrt] at h
    obtain ⟨hde, hce, hdep⟩ := renderNode_flags node 0 0 "" p inst h
    refine ⟨hde, ?_, ?_⟩
    · intro hsec hdep1
      rw [isSectionNode, Bool.and_eq_true] at hsec
      rw [hce]
      simp only [hsec.1, Bool.not_eq_eq_eq_not] at *
      simp [hsec.2, hdep1]
    · intro hsec hdep0
      rw [hce, hdep0]
      simp

/-- C3 witness: in `exTreeC3`, after one click the root section is expanded;
after the second click the depth-1 section `S` is collapsed again. -/
theorem C3_toggle_all_witness :
    findAt [] (expandAllClick (initialController exTreeC3)).tree = some exT1C3 ∧
    isSectionNode exT1C3 = true ∧
    exT1C3.childrenExpanded = true ∧
    findAt [0] (expandAllClick (expandAllClick (initialController exTreeC3))).tree =
      some exInst2C3 ∧
    exInst2C3.childrenExpanded = false :=
  ⟨rfl, rfl, ((C3_toggle_all exTreeC3).1 [] exT1C3 rfl).1 rfl, rfl,
    ((C3_toggle_all exTreeC3).2 [0] exInst2C3 rfl).2.1 rfl (by decide)⟩

/-- C4, counterexample.  The claim says double-toggling a section's children
facet restores its pre-toggle state including the coupled detail flag, in
every reachable state.  The initial state of `exTreeC4` — a depth-0 section
with its own detail, children expanded, detail collapsed — is reachable, yet
after two `toggleSection`s the detail flag ends `true` instead of `false`:
the collapse leg does not touch the collapsed detail, while the expand leg
force-expands it. -/
theorem C4_counterexample :
    isSectionNode (renderNode exTreeC4 0 0 "") = true ∧
    (renderNode exTreeC4 0 0 "").childrenExpanded = true ∧
    (renderNode exTreeC4 0 0 "").detailExpanded = false ∧
    (toggleSection (toggleSection (renderNode exTreeC4 0 0 ""))).childrenExpanded = true ∧
    (toggleSection (toggleSection (renderNode exTreeC4 0 0 ""))).detailExpanded = true :=
  ⟨rfl, rfl, rfl, rfl, rfl⟩

/-- C4, amended.  Double-toggling a section node's children facet always
restores `childrenExpanded` (and touches nothing else on the node); it also
restores `detailExpanded` exactly when the subtree has no detail element or
the two flags were equal beforehand.  When the flags differ and a detail
exists in the subtree (e.g. children expanded with detail collapsed), the
second toggle leaves the detail flag flipped. -/
theorem C4_double_toggle (n : FNode) (hsec : n.type = some "section")
    (hch : n.children.isEmpty = false) :
    (toggleSection (toggleSection n)).childrenExpanded = n.childrenExpanded ∧
    (toggleSection (toggleSection n)).info = n.info ∧
    (toggleSection (toggleSection n)).children = n.children ∧
    ((toggleSection (toggleSection n)).detailExpanded = n.detailExpanded ↔
      (hasDetailEl n = false ∨ n.childrenExpanded = n.detailExpanded)) := by
  cases n with
  | mk info st cs =>
    cases st with
    | mk de ce =>
      simp only [FNode.children_mk] at hch
      simp only [toggleSection, toggleDetail, FNode.withSt, hasDetailEl_mk, FNode.children_mk,
        FNode.st_mk, FNode.info_mk, FNode.detailExpanded, FNode.childrenExpanded, hch,
        FNode.st, FNode.info, FNode.children]
      cases de <;> cases ce <;> cases h1 : (truthy info.detail || hasDetailElL cs) <;>
        simp [h1, hch]

/-- C4 witness: the amended statement applied to the root of `exTreeC4`. -/
theorem C4_double_toggle_witness :
    (renderNode exTreeC4 0 0 "").type = some "section" ∧
    (renderNode exTreeC4 0 0 "").children.isEmpty = false ∧
    (toggleSection (toggleSection (renderNode exTreeC4 0 0 ""))).childrenExpanded =
      (renderNode exTreeC4 0 0 "").childrenExpanded :=
  ⟨rfl, rfl, (C4_double_toggle (renderNode exTreeC4 0 0 "") rfl rfl).1⟩

/-- C5, counterexample.  The claim says two bulk toggles restore any
reachable state if no manual toggles happen between the two bulk calls.
`exStateC5` is reachable: fresh render, then one manual header activation
expanding the depth-1 section `S` (the controller flag stays `false`, as
manual toggles never touch it).  Two bulk clicks later `S` is collapsed,
not restored: the second bulk call drives the tree to the fully collapsed
state instead of the pre-call state. -/
theorem C5_counterexample :
    (findAt [0] exStateC5.tree).map FNode.childrenExpanded = some true ∧
    exStateC5.allExpanded = false ∧
    (findAt [0] (expandAllClick (expandAllClick exStateC5)).tree).map
      FNode.childrenExpanded = some false :=
  ⟨rfl, rfl, rfl⟩

/-- C5, amended.  Two consecutive clicks of the expand/collapse-all button
restore the tree exactly when the state before the first click is the bulk
state the pair drives to; in particular, from the initial state (fresh
render, controller flag `false`) the pair of clicks is the identity.
Manual per-node toggles made before the first click are overridden — bulk
state wins. -/
theorem C5_toggle_all_initial (node : RawNode) :
    expandAllClick (expandAllClick (initialController node)) = initialController node := by
  have h2 : expandAllClick (expandAllClick (initialController node)) =
      ⟨false, collapseAllPass (expandAllPass (renderNode node 0 0 ""))⟩ := rfl
  rw [h2, initialController]
  have := renderNode_roundtrip node 0 0 ""
  simp only [collapseAllPass, expandAllPass]
  rw [this]

/-- C6, counterexample.  The claim says a node missing a required field
(`type` or `label`) makes the tree builder fail with a `MalformedTree`
error rather than producing an instance for that node.  In the code only
the absent root throws; a node without `type` is rendered with the fallback
icon (`ICONS[node.type] || ICONS.info`) and the build succeeds, producing a
node instance for it. -/
theorem C6_counterexample :
    buildTree (some exTreeC6) =
      .ok (FNode.mk ⟨some "n1", none, some "L", none, none, 0, ""⟩ ⟨false, true⟩ []) :=
  rfl

/-- C6, amended.  The tree builder fails exactly when the root is absent
(the spec's `MalformedTree` condition, thrown as a `TypeError` on the first
field access); a node missing `type` or `label` does not make it fail. -/
theorem C6_build_fails_iff_root_absent (root : Option RawNode) :
    (∃ msg, buildTree root = .error msg) ↔ root = none := by
  cases root with
  | none => simp [buildTree]
  | some r => simp [buildTree]

/-- C7.  The mount boundary converts every failure of the fetch/build
sequence into the static error panel, and otherwise shows the fully built
tree: the container never holds anything but one of those two results, so
no partial tree is ever shown. -/
theorem C7_mount_atomicity :
    (∀ msg, initFlowchart (.failure msg) = .errorPanel msg) ∧
    (∃ msg, initFlowchart (.success none) = .errorPanel msg) ∧
    (∀ node, initFlowchart (.success (some node)) = .tree (renderNode node 0 0 "")) ∧
    (∀ r, (∃ msg, initFlowchart r = .errorPanel msg) ∨
      (∃ node, r = .success (some node) ∧ initFlowchart r = .tree (renderNode node 0 0 ""))) := by
  refine ⟨fun msg => rfl, ⟨_, rfl⟩, fun node => rfl, ?_⟩
  intro r
  cases r with
  | failure msg => exact Or.inl ⟨msg, rfl⟩
  | success root =>
    cases root with
    | none => exact Or.inl ⟨_, rfl⟩
    | some node => exact Or.inr ⟨node, rfl, rfl⟩

theorem renderNode_positionLabel (node : RawNode) (dep idx : Nat) (tn : String) :
    (renderNode node dep idx tn).positionLabel = tn := by
  cases node with
  | mk d cs => rw [renderNode]; rfl

/-- C8.  In the rendered tree, the node reached by the child-index path `p`
has depth `p.length`; its position label is the dot-separated concatenation
of one segment per path step, each segment being the 1-based sibling index
zero-padded to 2 digits; and a child's label is its parent's label with one
more segment appended (the root's label is the empty string, the
`joinDots []` case). -/
theorem C8_position_label (node : RawNode) (p : List Nat) (inst : FNode)
    (h : findAt p (renderNode node 0 0 "") = some inst) :
    inst.depth = p.length ∧
    inst.positionLabel = joinDots (p.map (fun i => pad2 (i + 1))) ∧
    (∀ (i : Nat) (child : FNode), findAt (p ++ [i]) (renderNode node 0 0 "") = some child →
      child.positionLabel = childNumber inst.positionLabel i) := by
  have hdep := (renderNode_flags node 0 0 "" p inst h).2.2
  obtain ⟨node', idx', hform⟩ := findAt_renderNode p node 0 0 "" inst h
  have hlabel : inst.positionLabel = appendPath "" p := by
    rw [hform, renderNode_positionLabel]
  refine ⟨by omega, ?_, ?_⟩
  · rw [hlabel, appendPath_empty_eq_joinDots]
  · intro i child hchild
    obtain ⟨node'', idx'', hform'⟩ := findAt_renderNode (p ++ [i]) node 0 0 "" child hchild
    rw [hform', renderNode_positionLabel, appendPath_snoc, hlabel]

/-- C8 witness: in `exTreeC8`, the node `S` at path `[0]` has depth 1 and
label `"01"`, and its child `D` at path `[0, 1]` extends that label by one
zero-padded segment. -/
theorem C8_position_label_witness :
    findAt [0] (renderNode exTreeC8 0 0 "") = some exInstC8 ∧
    exInstC8.depth = 1 ∧
    exInstC8.positionLabel = joinDots [pad2 1] ∧
    findAt [0, 1] (renderNode exTreeC8 0 0 "") = some exChildC8 ∧
    exChildC8.positionLabel = childNumber exInstC8.positionLabel 1 :=
  ⟨rfl, (C8_position_label exTreeC8 [0] exInstC8 rfl).1,
    (C8_position_label exTreeC8 [0] exInstC8 rfl).2.1, rfl,
    (C8_position_label exTreeC8 [0] exInstC8 rfl).2.2 1 exChildC8 rfl⟩

/-- C9.  A node with a detail and no children: activating it once sets its
`detailExpanded` to `true`; activating it a second time restores the node
exactly (so the flag is back to `false`); and activating a sibling (any
path diverging at a different child index) leaves the node — both its
visibility flags included — untouched. -/
theorem C9_detail_sibling_isolation (t : FNode) (r : List Nat) (i j : Nat) (a : FNode)
    (ha : findAt (r ++ [i]) t = some a) (hdet : truthy a.detail = true)
    (hch : a.children.isEmpty = true) (hcol : a.detailExpanded = false) :
    (findAt (r ++ [i]) (updateAt (r ++ [i]) headerClick t)).map FNode.detailExpanded =
      some true ∧
    findAt (r ++ [i]) (updateAt (r ++ [i]) headerClick (updateAt (r ++ [i]) headerClick t)) =
      some a ∧
    (i ≠ j → findAt (r ++ [i]) (updateAt (r ++ [j]) headerClick t) = findAt (r ++ [i]) t) := by
  have hclick : headerClick a = a.withSt ⟨true, a.st.childrenExpanded⟩ := by
    cases a with
    | mk info st cs =>
      have hcs : cs = [] := by
        cases cs with
        | nil => rfl
        | cons c rest => simp [FNode.children] at hch
      subst hcs
      simp only [FNode.detail, FNode.info_mk, FNode.info] at hdet
      simp only [FNode.detailExpanded, FNode.st_mk, FNode.st] at hcol
      simp [headerClick, isSectionNode, toggleDetail, FNode.withSt, hasDetailEl_mk,
        hasDetailElL, hdet, hcol, FNode.type, FNode.children, FNode.detail, FNode.info,
        FNode.st]
  have hclick2 : headerClick (headerClick a) = a := by
    rw [hclick]
    cases a with
    | mk info st cs =>
      have hcs : cs = [] := by
        cases cs with
        | nil => rfl
        | cons c rest => simp [FNode.children] at hch
      subst hcs
      simp only [FNode.detail, FNode.info_mk, FNode.info] at hdet
      simp only [FNode.detailExpanded, FNode.st_mk, FNode.st] at hcol
      cases st with
      | mk de ce =>
        simp only at hcol
        subst hcol
        simp [headerClick, isSectionNode, toggleDetail, FNode.withSt, hasDetailEl_mk,
          hasDetailElL, hdet, FNode.type, FNode.children, FNode.detail, FNode.info,
          FNode.st]
  refine ⟨?_, ?_, ?_⟩
  · rw [findAt_updateAt_self, ha]
    simp only [Option.map_some', Option.map_map]
    rw [hclick]
    cases a with
    | mk info st cs => simp [FNode.withSt, FNode.detailExpanded]
  · rw [findAt_updateAt_self, findAt_updateAt_self, ha]
    simp only [Option.map_some', Option.map_map, Function.comp_apply]
    rw [hclick2]
  · intro hij
    exact findAt_updateAt_sibling r i j [] [] headerClick t hij

/-- C9 witness: the node `A` of `exTreeC9`, activated and shielded from its
sibling `B`'s activation. -/
theorem C9_detail_sibling_isolation_witness :
    findAt [0] (renderNode exTreeC9 0 0 "") = some exNodeC9 ∧
    truthy exNodeC9.detail = true ∧
    exNodeC9.children.isEmpty = true ∧
    exNodeC9.detailExpanded = false ∧
    findAt [0] (updateAt [1] headerClick (renderNode exTreeC9 0 0 "")) =
      findAt [0] (renderNode exTreeC9 0 0 "") :=
  ⟨rfl, rfl, rfl, rfl,
    (C9_detail_sibling_isolation (renderNode exTreeC9 0 0 "") [] 0 1 exNodeC9 rfl rfl rfl
      rfl).2.2 (by omega)⟩

/-- C10.  Activating a node that is neither a section-with-children nor a
detail carrier is a complete no-op: the click dispatch falls through both
branches and the whole tree state — every visibility flag of every node —
is unchanged. -/
theorem C10_inert_noop (t : FNode) (p : List Nat) (a : FNode)
    (ha : findAt p t = some a) (hns : isSectionNode a = false)
    (hnd : truthy a.detail = false) :
    updateAt p headerClick t = t := by
  apply updateAt_eq_self
  intro n hn
  rw [ha] at hn
  injection hn with hn
  subst hn
  simp [headerClick, hns, hnd]

/-- C10 witness: the inert node `A` of `exTreeC10`. -/
theorem C10_inert_noop_witness :
    findAt [0] (renderNode exTreeC10 0 0 "") = some exNodeC10 ∧
    isSectionNode exNodeC10 = false ∧
    truthy exNodeC10.detail = false ∧
    updateAt [0] headerClick (renderNode exTreeC10 0 0 "") = renderNode exTreeC10 0 0 "" :=
  ⟨rfl, rfl, rfl, C10_inert_noop (renderNode exTreeC10 0 0 "") [0] exNodeC10 rfl rfl rfl⟩
